import Mathlib

/-!
Verification model of `import_snapshot.py`, a helper script that imports a
snapshot of upstream Wayland protocol sources into a vendored subdirectory.

The script is shallowly embedded: every Python function the claims touch is
translated into an executable Lean definition over `List Char` (for text the
Python code manipulates with `re` and `str` operations) and `List String`
(for relative paths, one entry per path component, mirroring
`pathlib.PurePath.parts`).  External effects (git subprocesses, the
filesystem) are represented by explicit effect lists or by oracle inputs
recording what the external command returned.
-/

/-! ## Glob matching and `must_ignore`

`must_ignore` (import_snapshot.py lines 282-293) calls
`pathlib.PurePath.match` on each of four patterns.  For a relative pattern,
`PurePath.match` (Python 3.11, `pathlib.PurePath.match`) splits the pattern
into components, requires the path to have at least as many components, and
matches components right-to-left with `fnmatch.fnmatchcase`; in this method
`**` is not recursive and behaves exactly like `*`.
-/

/-- Model of `fnmatch.fnmatchcase` restricted to the metacharacters the
script's patterns use: `*` (any run of characters, possibly empty) and `?`
(exactly one character); every other pattern character matches itself.  A
`*` consumes an arbitrary prefix of the string, so the rest of the pattern
must match some suffix of the string. -/
def fnmatchComp : List Char → List Char → Bool
  | [], s => s.isEmpty
  | p :: ps, s =>
    if p = '*' then s.tails.any (fun t => fnmatchComp ps t)
    else
      match s with
      | [] => false
      | c :: cs => (p == '?' || p == c) && fnmatchComp ps cs

/-- Right-to-left component matching: each pattern component (already
reversed) must `fnmatch` the corresponding path component (already
reversed), with the pattern allowed to be shorter than the path. -/
def matchRev : List String → List String → Bool
  | [], _ => true
  | _ :: _, [] => false
  | q :: qs, s :: ss => fnmatchComp q.data s.data && matchRev qs ss

/-- Model of `PurePath.match` for a relative pattern: the pattern may not
have more components than the path, and components are matched from the
right. -/
def pathMatchRight (patParts parts : List String) : Bool :=
  decide (patParts.length ≤ parts.length) && matchRev patParts.reverse parts.reverse

/-- Patterns of `IGNORE_PATTERNS` in `must_ignore`, already split into
components the way `PurePath.match` splits a pattern on `/`. -/
def IGNORE_PATTERNS : List (List String) :=
  [["METADATA"], ["MODULE_LICENSE_*"], ["**", "OWNERS"], ["**", "Android.bp"]]

/-- Model of `must_ignore(path)`: true when any ignore pattern matches the
path (a relative path given by its components). -/
def mustIgnore (p : List String) : Bool :=
  IGNORE_PATTERNS.any (fun pat => pathMatchRight pat p)

/-- Matching a pattern consisting of a single `*` succeeds on any string. -/
theorem fnmatchComp_star (s : List Char) : fnmatchComp ['*'] s = true := by
  simp only [fnmatchComp, if_true, ite_true, List.any_eq_true]
  exact ⟨[], by simp [List.mem_tails], rfl⟩

/-- Matching the pattern `**` (as `fnmatch` sees it) succeeds on any string. -/
theorem fnmatchComp_starstar (s : List Char) : fnmatchComp ['*', '*'] s = true := by
  simp only [fnmatchComp, if_true, ite_true, List.any_eq_true]
  exact ⟨[], by simp [List.mem_tails], [], by simp [List.mem_tails], rfl⟩

example : mustIgnore ["METADATA"] = true := by decide
example : mustIgnore ["sub", "dir", "METADATA"] = true := by decide
example : mustIgnore ["OWNERS"] = false := by decide
example : mustIgnore ["sub", "OWNERS"] = true := by decide
example : mustIgnore ["Android.bp"] = false := by decide
example : mustIgnore ["x", "Android.bp"] = true := by decide
example : mustIgnore ["d", "MODULE_LICENSE_APACHE2"] = true := by decide
example : mustIgnore ["METADATAx"] = false := by decide

/-- A single-component ignore pattern is matched right-anchored: it is
checked against the last component of the path only. -/
theorem pathMatchRight_single (q : String) (dirs : List String) (x : String)
    (h : fnmatchComp q.data x.data = true) :
    pathMatchRight [q] (dirs ++ [x]) = true := by
  simp [pathMatchRight, matchRev, h]

/-- A two-component ignore pattern whose first component matches anything is
matched right-anchored against the last two components of a path that has at
least two components. -/
theorem pathMatchRight_double (q1 q2 : String) (d x : String) (dirs : List String)
    (h1 : fnmatchComp q2.data x.data = true)
    (h2 : ∀ s, fnmatchComp q1.data s = true) :
    pathMatchRight [q1, q2] ((d :: dirs) ++ [x]) = true := by
  obtain ⟨y, ys, hy⟩ : ∃ y ys, dirs.reverse ++ [d] = y :: ys := by
    cases hr : dirs.reverse <;> simp [hr]
  simp [pathMatchRight, matchRev, hy, h1, h2 y.data]

/-- When some ignore pattern matches, `must_ignore` returns true. -/
theorem mustIgnore_of_pattern (pat : List String) (p : List String)
    (hmem : pat ∈ IGNORE_PATTERNS) (h : pathMatchRight pat p = true) :
    mustIgnore p = true := by
  simp only [mustIgnore, List.any_eq_true]
  exact ⟨pat, hmem, h⟩

/-- Pattern `MODULE_LICENSE_*` accepts any component beginning with the
literal `MODULE_LICENSE_`. -/
theorem fnmatch_moduleLicense (t : List Char) :
    fnmatchComp "MODULE_LICENSE_*".data ("MODULE_LICENSE_".data ++ t) = true := by
  simp only [fnmatchComp, String.data]
  simp [fnmatchComp_star t]

/-- Claim C8, counterexample: the claim says the patterns protect files
named `OWNERS` (and `Android.bp`) at any directory depth, yet a top-level
`OWNERS` file is not matched by `**/OWNERS` under `PurePath.match` (where
`**` behaves like a single-component `*`), so `must_ignore` does not protect
it. -/
theorem claim_C8_counterexample :
    mustIgnore ["OWNERS"] = false ∧ mustIgnore ["Android.bp"] = false := by
  decide

/-- Claim C8, amended: `must_ignore` matches its patterns right-anchored
against the end of the path; `METADATA` and `MODULE_LICENSE_*` protect files
with those names at any depth including the top level, while `**/OWNERS` and
`**/Android.bp` protect `OWNERS` and `Android.bp` files only when they lie
under at least one directory — a top-level `OWNERS` or `Android.bp` is not
protected. -/
theorem claim_C8 (dirs : List String) (d : String) (t : List Char) :
    mustIgnore (dirs ++ ["METADATA"]) = true ∧
    mustIgnore (dirs ++ [String.mk ("MODULE_LICENSE_".data ++ t)]) = true ∧
    mustIgnore ((d :: dirs) ++ ["OWNERS"]) = true ∧
    mustIgnore ((d :: dirs) ++ ["Android.bp"]) = true ∧
    mustIgnore ["OWNERS"] = false ∧
    mustIgnore ["Android.bp"] = false := by
  refine ⟨?_, ?_, ?_, ?_, by decide, by decide⟩
  · exact mustIgnore_of_pattern ["METADATA"] _ (by decide)
      (pathMatchRight_single _ dirs _ (by decide))
  · exact mustIgnore_of_pattern ["MODULE_LICENSE_*"] _ (by decide)
      (pathMatchRight_single _ dirs _ (fnmatch_moduleLicense t))
  · exact mustIgnore_of_pattern ["**", "OWNERS"] _ (by decide)
      (pathMatchRight_double _ _ d _ dirs (by decide)
        (fun s => fnmatchComp_starstar s))
  · exact mustIgnore_of_pattern ["**", "Android.bp"] _ (by decide)
      (pathMatchRight_double _ _ d _ dirs (by decide)
        (fun s => fnmatchComp_starstar s))

/-! ## Text utilities

Python string operations used by the script, modelled over `List Char` so
that everything reduces in the kernel.
-/

/-- Python exceptions and `sys.exit` outcomes the script can produce. -/
inductive PyErr where
  | valueError
  | indexError
  | exitMsg (msg : List Char)
deriving DecidableEq

/-- Drops a literal pattern from the front of a string, or fails. -/
def dropLit : List Char → List Char → Option (List Char)
  | [], s => some s
  | _ :: _, [] => none
  | p :: ps, c :: cs => if c = p then dropLit ps cs else none

/-- Splits at the first occurrence of `stop`, returning the characters
before it and the characters after it; fails when `stop` does not occur. -/
def takeUntil (stop : Char) : List Char → Option (List Char × List Char)
  | [] => none
  | c :: cs =>
    if c = stop then some ([], cs)
    else
      match takeUntil stop cs with
      | some (a, r) => some (c :: a, r)
      | none => none

/-- Character class of the regex `\s` (Python `re` on ASCII text). -/
def pyIsSpace (c : Char) : Bool :=
  c = ' ' || c = '\t' || c = '\n' || c = '\r' || c = '\x0b' || c = '\x0c'

/-- Skips a maximal run of whitespace, the regex `\s*`. -/
def skipWs : List Char → List Char
  | [] => []
  | c :: cs => if pyIsSpace c then skipWs cs else c :: cs

/-- Fuel-driven worker for `listSplitOn`. -/
def splitOnAux (sep : List Char) : Nat → List Char → List Char → List (List Char)
  | 0, acc, s => [acc.reverse ++ s]
  | _ + 1, acc, [] => [acc.reverse]
  | n + 1, acc, c :: cs =>
    match dropLit sep (c :: cs) with
    | some rest => acc.reverse :: splitOnAux sep n [] rest
    | none => splitOnAux sep n (c :: acc) cs

/-- Model of Python `str.split(sep)` for a nonempty separator: splits at
every non-overlapping leftmost occurrence of `sep`. -/
def listSplitOn (sep s : List Char) : List (List Char) :=
  splitOnAux sep (s.length + 1) [] s

example : listSplitOn "/-/tree/".data "https://e/repo/-/tree/main/sub".data =
    ["https://e/repo".data, "main/sub".data] := by decide
example : listSplitOn "/-/".data "a/-/b/-/c".data = ["a".data, "b".data, "c".data] := by
  decide
example : listSplitOn "/-/".data "abc".data = ["abc".data] := by decide

/-! ## `AndroidMetadata._read_raw_git_urls`

The method finds every GIT url block with `re.findall`, strips an optional
gitlab-style (slash dash slash `tree` slash ref slash path) or gitiles-style
(slash plus slash ref slash path) suffix from each URL, requires all base
URLs to agree, and collects the non-empty subpaths.
-/

/-- Delimiter of the gitlab-style URL suffix. -/
def TREE_SEP : List Char := "/-/tree/".data

/-- Delimiter of the gitiles-style URL suffix. -/
def PLUS_SEP : List Char := "/+/".data

/-- Parses one URL value: `base_url, path = url.split(sep)` followed by
`_, path = path.split('/', 1)` for whichever delimiter occurs, faithfully
raising `ValueError` when tuple unpacking of `str.split` fails (delimiter
occurring more than once, or no `/` after the delimiter). -/
def parseUrl (url : List Char) : Except PyErr (List Char × Option (List Char)) :=
  if 2 ≤ (listSplitOn TREE_SEP url).length then
    match listSplitOn TREE_SEP url with
    | [b, p] =>
      match takeUntil '/' p with
      | some (_, rest) => .ok (b, some rest)
      | none => .error .valueError
    | _ => .error .valueError
  else if 2 ≤ (listSplitOn PLUS_SEP url).length then
    match listSplitOn PLUS_SEP url with
    | [b, p] =>
      match takeUntil '/' p with
      | some (_, rest) => .ok (b, some rest)
      | none => .error .valueError
    | _ => .error .valueError
  else .ok (url, none)

/-- Paths contributed by one URL entry: Python appends `path` only when
`if path:` holds, i.e. the suffix is present and non-empty. -/
def pathsOf : Option (List Char) → List (List Char)
  | some p => if p.isEmpty then [] else [p]
  | none => []

/-- Processes one URL entry against the accumulated `(self._url,
self._paths)` state, exiting fatally when a truthy stored URL disagrees
with the new base URL. -/
def urlStep (acc : Option (List Char) × List (List Char)) (url : List Char) :
    Except PyErr (Option (List Char) × List (List Char)) :=
  match parseUrl url with
  | .error e => .error e
  | .ok (b, pOpt) =>
    match acc.1 with
    | some u =>
      if !u.isEmpty && u ≠ b then
        .error (.exitMsg ("Error: Inconsistent git URLs (".data ++ u ++ " vs ".data
          ++ b ++ [')']))
      else .ok (some b, acc.2 ++ pathsOf pOpt)
    | none => .ok (some b, acc.2 ++ pathsOf pOpt)

/-- Folds `urlStep` over the URL entries of the record, stopping at the
first error, mirroring the loop of `_read_raw_git_urls`. -/
def processUrls : (Option (List Char) × List (List Char)) → List (List Char) →
    Except PyErr (Option (List Char) × List (List Char))
  | acc, [] => .ok acc
  | acc, u :: us =>
    match urlStep acc u with
    | .error e => .error e
    | .ok acc2 => processUrls acc2 us

/-- Matches the regex `url\s*{\s*type:\s*GIT\s*value:\s*"([^"]*)"\s*}` at
the start of the input, returning the captured group and the rest of the
input after the whole match. -/
def matchUrlEntry (s : List Char) : Option (List Char × List Char) := do
  let s1 ← dropLit "url".data s
  let s2 ← dropLit ['\x7b'] (skipWs s1)
  let s3 ← dropLit "type:".data (skipWs s2)
  let s4 ← dropLit "GIT".data (skipWs s3)
  let s5 ← dropLit "value:".data (skipWs s4)
  let s6 ← dropLit ['"'] (skipWs s5)
  let (v, s7) ← takeUntil '"' s6
  let s8 ← dropLit ['\x7d'] (skipWs s7)
  pure (v, s8)

/-- Fuel-driven worker for `findAllUrls`: tries the pattern at every
position, continuing after each non-overlapping match, the scanning scheme
of `re.findall`. -/
def findAllAux : Nat → List Char → List (List Char)
  | 0, _ => []
  | _ + 1, [] => []
  | n + 1, c :: cs =>
    match matchUrlEntry (c :: cs) with
    | some (v, rest) => v :: findAllAux n rest
    | none => findAllAux n cs

/-- Model of `re.findall(URL_PATTERN, content)`. -/
def findAllUrls (s : List Char) : List (List Char) :=
  findAllAux (s.length + 1) s

/-- Model of `_read_raw_git_urls`: the resulting `(self._url, self._paths)`
pair, or the Python exception / fatal exit it raises. -/
def readRawGitUrls (content : List Char) :
    Except PyErr (Option (List Char) × List (List Char)) :=
  processUrls (none, []) (findAllUrls content)

/-- Model of the `git_url` property (the stored base URL; `none` when the
record has no URL entries at all). -/
def gitUrl (content : List Char) : Except PyErr (Option (List Char)) :=
  (readRawGitUrls content).map (fun a => a.1)

/-- Model of the `git_paths` property. -/
def gitPaths (content : List Char) : Except PyErr (List (List Char)) :=
  (readRawGitUrls content).map (fun a => a.2)

example : findAllUrls "url \x7b type: GIT value: \"https://x\" \x7d".data =
    ["https://x".data] := by decide
example : findAllUrls "url\x7btype:GITvalue:\"x\"\x7d other".data = ["x".data] := by
  decide

/-- Record text used by the spec's suffix-free example. -/
def suffixFreeRecord : List Char :=
  "url \x7b type: GIT value: \"https://example.org/repo\" \x7d".data

/-- Claim C3: a URL with a recognized delimiter is split into the base URL
before the delimiter and the subpath after the ref component (the spec's
example evaluates as stated); a URL without either delimiter is returned
whole with no subpath, so a record with a single suffix-free URL yields an
empty `git_paths` sequence. -/
theorem claim_C3 :
    (∀ u : List Char, (listSplitOn TREE_SEP u).length = 1 →
      (listSplitOn PLUS_SEP u).length = 1 → parseUrl u = .ok (u, none)) ∧
    parseUrl "https://example.org/repo/-/tree/main/sub/dir".data =
      .ok ("https://example.org/repo".data, some "sub/dir".data) ∧
    gitUrl suffixFreeRecord = .ok (some "https://example.org/repo".data) ∧
    gitPaths suffixFreeRecord = .ok [] := by
  refine ⟨fun u h1 h2 => ?_, rfl, rfl, rfl⟩
  simp [parseUrl, h1, h2]

/-- Witness for claim C3 at a concrete suffix-free URL. -/
theorem claim_C3_witness :
    parseUrl "https://example.org/repo".data =
      .ok ("https://example.org/repo".data, none) :=
  claim_C3.1 "https://example.org/repo".data (by decide) (by decide)

/-- Record text whose single URL has a delimiter but no slash after the ref
component. -/
def refOnlySuffixRecord : List Char :=
  "url \x7b type: GIT value: \"https://example.org/repo/-/tree/main\" \x7d".data

/-- Claim C9: a GIT URL whose suffix has no `/` separating the ref from a
path makes `git_url` and `git_paths` fail with the `ValueError` of tuple
unpacking of `str.split`, not with the descriptive fatal-exit message used
for other metadata failures. -/
theorem claim_C9 :
    gitUrl refOnlySuffixRecord = .error .valueError ∧
    gitPaths refOnlySuffixRecord = .error .valueError ∧
    (∀ m : List Char, (.valueError : PyErr) ≠ .exitMsg m) := by
  refine ⟨rfl, rfl, fun m h => by cases h⟩

/-! ## `AndroidMetadata.current_version` and `update_version_and_import_date`

`current_version` is `re.search(r'version: "([^"]*)"', content).group(1)`;
the update method is two global `re.sub` calls, one for the version pattern
and one for the last-upgrade-date pattern.
-/

/-- Matches the regex `version: "([^"]*)"` at the start of the input,
returning the captured group and the rest of the input. -/
def matchVersionCap (s : List Char) : Option (List Char × List Char) := do
  let s1 ← dropLit "version: \"".data s
  let (v, s2) ← takeUntil '"' s1
  pure (v, s2)

/-- Full-match form of the version pattern, for substitution. -/
def matchVersion (s : List Char) : Option (List Char) :=
  (matchVersionCap s).map (fun a => a.2)

/-- Matches the regex `last_upgrade_date \x7b[^\x7d]*\x7d` (literal braces)
at the start of the input, returning the rest of the input. -/
def matchDate (s : List Char) : Option (List Char) := do
  let s1 ← dropLit "last_upgrade_date \x7b".data s
  let (_, s2) ← takeUntil '\x7d' s1
  pure s2

/-- Replacement text of the version substitution. -/
def replVersion (version : List Char) : List Char :=
  "version: \"".data ++ version ++ ['"']

/-- Replacement text of the date substitution, rendered from
`datetime.datetime.now()`. -/
def replDate (y mo d : Nat) : List Char :=
  "last_upgrade_date \x7b year: ".data ++ (toString y).data ++ " month: ".data
    ++ (toString mo).data ++ " day: ".data ++ (toString d).data ++ " \x7d".data

/-- Fuel-driven worker modelling `re.sub`: scans left to right, replacing
every non-overlapping match of `m` by `repl`. -/
def subAllAux (m : List Char → Option (List Char)) (repl : List Char) :
    Nat → List Char → List Char
  | 0, s => s
  | _ + 1, [] => []
  | n + 1, c :: cs =>
    match m (c :: cs) with
    | some rest => repl ++ subAllAux m repl n rest
    | none => c :: subAllAux m repl n cs

/-- Model of `re.sub(pattern, repl, s)` for a matcher that always consumes
at least one character. -/
def subAll (m : List Char → Option (List Char)) (repl : List Char)
    (s : List Char) : List Char :=
  subAllAux m repl (s.length + 1) s

/-- Model of `update_version_and_import_date`: substitute the version
pattern globally, then the date pattern globally, in that order. -/
def updateVersionAndImportDate (version : List Char) (y mo d : Nat)
    (content : List Char) : List Char :=
  subAll matchDate (replDate y mo d) (subAll matchVersion (replVersion version) content)

/-- Model of `re.search` for the version pattern: first position, scanning
left to right, where the pattern matches; returns the captured group. -/
def searchVersion : List Char → Option (List Char)
  | [] => none
  | c :: cs =>
    match matchVersionCap (c :: cs) with
    | some (v, _) => some v
    | none => searchVersion cs

/-- Model of the `current_version` property: the first version match, or
the fatal exit when the pattern does not occur. -/
def currentVersion (content : List Char) : Except PyErr (List Char) :=
  match searchVersion content with
  | some v => .ok v
  | none => .error (.exitMsg "Error: Unable to determine current version".data)

example : currentVersion "version: \"1.0\" version: \"2.0\"".data = .ok "1.0".data := rfl
example : currentVersion "nothing".data =
    .error (.exitMsg "Error: Unable to determine current version".data) := rfl
example : updateVersionAndImportDate "2.0".data 2026 10 12
      "version: \"1.0\"\nlast_upgrade_date \x7b year: 1 month: 2 day: 3 \x7d\n".data =
    "version: \"2.0\"\nlast_upgrade_date \x7b year: 2026 month: 10 day: 12 \x7d\n".data := rfl

/-- Dropping a literal shortens the input by the literal's length. -/
theorem dropLit_length (p : List Char) :
    ∀ s r, dropLit p s = some r → r.length + p.length = s.length := by
  induction p with
  | nil => intro s r h; simp [dropLit] at h; simp [h]
  | cons q qs ih =>
      intro s r h
      cases s with
      | nil => simp [dropLit] at h
      | cons c cs =>
          simp only [dropLit] at h
          by_cases hc : c = q
          · rw [if_pos hc] at h
            have := ih cs r h
            simp [List.length_cons]
            omega
          · rw [if_neg hc] at h
            cases h

/-- Splitting at a stop character consumes the stop character. -/
theorem takeUntil_length (stop : Char) :
    ∀ s a r, takeUntil stop s = some (a, r) → a.length + 1 + r.length = s.length := by
  intro s
  induction s with
  | nil => intro a r h; cases h
  | cons c cs ih =>
      intro a r h
      simp only [takeUntil] at h
      by_cases hc : c = stop
      · rw [if_pos hc] at h
        cases h
        simp
        omega
      · rw [if_neg hc] at h
        cases hu : takeUntil stop cs with
        | none => rw [hu] at h; cases h
        | some pr =>
            rw [hu] at h
            cases h
            have := ih pr.1 pr.2 (by rw [hu])
            simp [List.length_cons]
            omega

/-- A successful version match consumes at least one character. -/
theorem matchVersion_lt (s r : List Char) (h : matchVersion s = some r) :
    r.length < s.length := by
  simp only [matchVersion, matchVersionCap] at h
  cases h1 : dropLit "version: \"".data s with
  | none => rw [h1] at h; simp [Option.bind] at h
  | some s1 =>
      rw [h1] at h
      simp only [bind, Option.bind] at h
      cases h2 : takeUntil '\"' s1 with
      | none => rw [h2] at h; simp [Option.bind] at h
      | some vr =>
          rw [h2] at h
          simp [Option.bind, pure] at h
          have l1 := dropLit_length _ _ _ h1
          have l2 := takeUntil_length _ _ _ _ h2
          subst h
          simp at l1
          omega

/-- A successful date match consumes at least one character. -/
theorem matchDate_lt (s r : List Char) (h : matchDate s = some r) :
    r.length < s.length := by
  simp only [matchDate] at h
  cases h1 : dropLit "last_upgrade_date \x7b".data s with
  | none => rw [h1] at h; simp [Option.bind] at h
  | some s1 =>
      rw [h1] at h
      simp only [bind, Option.bind] at h
      cases h2 : takeUntil '\x7d' s1 with
      | none => rw [h2] at h; simp [Option.bind] at h
      | some vr =>
          rw [h2] at h
          simp [Option.bind, pure] at h
          have l1 := dropLit_length _ _ _ h1
          have l2 := takeUntil_length _ _ _ _ h2
          subst h
          simp at l1
          omega

/-- With sufficient fuel, the `re.sub` worker does not depend on the exact
fuel value, provided the matcher always consumes at least one character. -/
theorem subAllAux_irrel (m : List Char → Option (List Char)) (repl : List Char)
    (hm : ∀ s r, m s = some r → r.length < s.length) :
    ∀ (k : Nat) (s : List Char) (n n' : Nat), s.length ≤ k → s.length < n →
      s.length < n' → subAllAux m repl n s = subAllAux m repl n' s := by
  intro k
  induction k with
  | zero =>
      intro s n n' hk hn hn'
      have hs : s = [] := List.length_eq_zero.mp (Nat.le_zero.mp hk)
      subst hs
      cases n with
      | zero => omega
      | succ a =>
          cases n' with
          | zero => omega
          | succ b => rfl
  | succ k ih =>
      intro s n n' hk hn hn'
      cases s with
      | nil =>
          cases n with
          | zero => omega
          | succ a =>
              cases n' with
              | zero => omega
              | succ b => rfl
      | cons c cs =>
          cases n with
          | zero => omega
          | succ a =>
              cases n' with
              | zero => omega
              | succ b =>
                  cases h : m (c :: cs) with
                  | none =>
                      simp only [subAllAux, h]
                      have : cs.length ≤ k := by simp at hk; omega
                      rw [ih cs a b this (by simp at hn; omega) (by simp at hn'; omega)]
                  | some rest =>
                      have hlt := hm _ _ h
                      simp only [subAllAux, h, List.length_cons] at hlt hk hn hn' ⊢
                      rw [ih rest a b (by omega) (by omega) (by omega)]

/-- Substitution step when the matcher fails at the current position. -/
theorem subAll_cons_none (m : List Char → Option (List Char)) (repl : List Char)
    (c : Char) (cs : List Char) (h : m (c :: cs) = none) :
    subAll m repl (c :: cs) = c :: subAll m repl cs := by
  simp only [subAll, List.length_cons, subAllAux, h]

/-- Substitution step when the matcher succeeds at the current position:
the replacement is emitted and scanning resumes after the match. -/
theorem subAll_match (m : List Char → Option (List Char)) (repl : List Char)
    (hm : ∀ s r, m s = some r → r.length < s.length)
    (s rest : List Char) (h : m s = some rest) :
    subAll m repl s = repl ++ subAll m repl rest := by
  cases s with
  | nil =>
      have := hm _ _ h
      simp at this
  | cons c cs =>
      have hlt := hm _ _ h
      simp only [subAll, List.length_cons, subAllAux, h]
      rw [subAllAux_irrel m repl hm rest.length rest (cs.length + 1) (rest.length + 1)
        (le_refl _) (by simp at hlt; omega) (by omega)]

/-- When every character of a block differs from the only character that
can begin a match, substitution leaves the block untouched and proceeds on
the rest. -/
theorem subAll_append_triggerFree (m : List Char → Option (List Char))
    (repl : List Char) (t : Char)
    (htrig : ∀ c rest, c ≠ t → m (c :: rest) = none) :
    ∀ (p s : List Char), (∀ c ∈ p, c ≠ t) →
      subAll m repl (p ++ s) = p ++ subAll m repl s := by
  intro p
  induction p with
  | nil => intro s _; simp
  | cons c cp ih =>
      intro s hp
      rw [List.cons_append,
        subAll_cons_none m repl c (cp ++ s) (htrig c _ (hp c (by simp))),
        ih s (fun d hd => hp d (by simp [hd]))]
      simp

/-- Substitution on the empty string. -/
theorem subAll_nil (m : List Char → Option (List Char)) (repl : List Char) :
    subAll m repl [] = [] := rfl

/-- Dropping a literal from a string that starts with it succeeds. -/
theorem dropLit_self : ∀ (p s : List Char), dropLit p (p ++ s) = some s := by
  intro p
  induction p with
  | nil => intro s; rfl
  | cons q qs ih => intro s; simp [dropLit, ih]

/-- Splitting at a stop character that first occurs right after `v`. -/
theorem takeUntil_append (stop : Char) :
    ∀ (v rest : List Char), (∀ c ∈ v, c ≠ stop) →
      takeUntil stop (v ++ stop :: rest) = some (v, rest) := by
  intro v
  induction v with
  | nil => intro rest _; simp [takeUntil]
  | cons c cv ih =>
      intro rest hv
      simp [takeUntil, if_neg (hv c (by simp)), ih rest (fun d hd => hv d (by simp [hd]))]

/-- The version pattern matches a version field in place, capturing the
quote-free version value. -/
theorem matchVersionCap_at (v rest : List Char) (hv : ∀ c ∈ v, c ≠ '"') :
    matchVersionCap ("version: \"".data ++ v ++ '"' :: rest) = some (v, rest) := by
  have : "version: \"".data ++ v ++ '"' :: rest
      = "version: \"".data ++ (v ++ '"' :: rest) := by simp
  rw [matchVersionCap, this, dropLit_self]
  simp only [bind, Option.bind, takeUntil_append '"' v rest hv]
  rfl

/-- Full-match version of `matchVersionCap_at`. -/
theorem matchVersion_at (v rest : List Char) (hv : ∀ c ∈ v, c ≠ '"') :
    matchVersion ("version: \"".data ++ v ++ '"' :: rest) = some rest := by
  rw [matchVersion, matchVersionCap_at v rest hv]
  rfl

/-- The date pattern matches a date field in place. -/
theorem matchDate_at (inner rest : List Char) (hin : ∀ c ∈ inner, c ≠ '\x7d') :
    matchDate ("last_upgrade_date \x7b".data ++ inner ++ '\x7d' :: rest) = some rest := by
  have : "last_upgrade_date \x7b".data ++ inner ++ '\x7d' :: rest
      = "last_upgrade_date \x7b".data ++ (inner ++ '\x7d' :: rest) := by simp
  rw [matchDate, this, dropLit_self]
  simp only [bind, Option.bind, takeUntil_append '\x7d' inner rest hin]
  rfl

/-- The version pattern can only begin at a character `v`. -/
theorem matchVersion_trigger (c : Char) (rest : List Char) (h : c ≠ 'v') :
    matchVersion (c :: rest) = none := by
  have hl : "version: \"".data = 'v' :: "ersion: \"".data := rfl
  simp only [matchVersion, matchVersionCap, hl, dropLit, if_neg h, bind, Option.bind]
  rfl

/-- The date pattern can only begin at a character `l`. -/
theorem matchDate_trigger (c : Char) (rest : List Char) (h : c ≠ 'l') :
    matchDate (c :: rest) = none := by
  have hl : "last_upgrade_date \x7b".data = 'l' :: "ast_upgrade_date \x7b".data := rfl
  simp only [matchDate, hl, dropLit, if_neg h, bind, Option.bind]

/-- Version-pattern search skips a block free of the trigger character. -/
theorem searchVersion_append (p s : List Char) (hp : ∀ c ∈ p, c ≠ 'v') :
    searchVersion (p ++ s) = searchVersion s := by
  induction p with
  | nil => simp
  | cons c cp ih =>
      have hcap : matchVersionCap (c :: (cp ++ s)) = none := by
        have hl : "version: \"".data = 'v' :: "ersion: \"".data := rfl
        simp only [matchVersionCap, hl, dropLit, if_neg (hp c (by simp)), bind,
          Option.bind]
      rw [List.cons_append, searchVersion, hcap, ih (fun d hd => hp d (by simp [hd]))]

/-- Version-pattern search at a version field returns its value. -/
theorem searchVersion_at (v rest : List Char) (hv : ∀ c ∈ v, c ≠ '"') :
    searchVersion ("version: \"".data ++ v ++ '"' :: rest) = some v := by
  have hshape : "version: \"".data ++ v ++ '"' :: rest
      = 'v' :: ("ersion: \"".data ++ v ++ '"' :: rest) := rfl
  rw [hshape, searchVersion, ← hshape, matchVersionCap_at v rest hv]

/-- Claim C10: `current_version` returns the value of the first occurrence
of the version pattern: for any text formed of a block that cannot start a
match, followed by a version field, followed by anything (in particular
further version fields), the result is that first field's value. -/
theorem claim_C10 (p v rest : List Char) (hp : ∀ c ∈ p, c ≠ 'v')
    (hv : ∀ c ∈ v, c ≠ '"') :
    currentVersion (p ++ "version: \"".data ++ v ++ '"' :: rest) = .ok v := by
  have : p ++ "version: \"".data ++ v ++ '"' :: rest
      = p ++ ("version: \"".data ++ v ++ '"' :: rest) := by simp
  rw [currentVersion, this, searchVersion_append _ _ hp, searchVersion_at v rest hv]

/-- Witness for claim C10: a record text with two version fields yields the
first one's value. -/
theorem claim_C10_witness :
    currentVersion ("name: \"x\"\n".data ++ "version: \"".data ++ "1.0".data
      ++ '"' :: "\nversion: \"2.0\"".data) = .ok "1.0".data :=
  claim_C10 "name: \"x\"\n".data "1.0".data "\nversion: \"2.0\"".data
    (by decide) (by decide)

/-- Version substitution leaves a `v`-free block unchanged. -/
theorem subV_block (R p s : List Char) (hp : ∀ c ∈ p, c ≠ 'v') :
    subAll matchVersion R (p ++ s) = p ++ subAll matchVersion R s :=
  subAll_append_triggerFree matchVersion R 'v' matchVersion_trigger p s hp

/-- Version substitution steps over a non-`v` character. -/
theorem subV_cons (R : List Char) (c : Char) (s : List Char) (h : c ≠ 'v') :
    subAll matchVersion R (c :: s) = c :: subAll matchVersion R s :=
  subAll_cons_none matchVersion R c s (matchVersion_trigger c s h)

/-- Version substitution replaces a version field and resumes after it. -/
theorem subV_field (R a rest : List Char) (ha : ∀ c ∈ a, c ≠ '"') :
    subAll matchVersion R ("version: \"".data ++ (a ++ '"' :: rest))
      = R ++ subAll matchVersion R rest := by
  have h : "version: \"".data ++ (a ++ '"' :: rest)
      = "version: \"".data ++ a ++ '"' :: rest := by simp
  rw [h]
  exact subAll_match matchVersion R matchVersion_lt _ rest (matchVersion_at a rest ha)

/-- Version substitution leaves a wholly `v`-free string unchanged. -/
theorem subV_all (R s : List Char) (hs : ∀ c ∈ s, c ≠ 'v') :
    subAll matchVersion R s = s := by
  have := subV_block R s [] hs
  simpa [subAll_nil] using this

/-- Date substitution leaves an `l`-free block unchanged. -/
theorem subD_block (R p s : List Char) (hp : ∀ c ∈ p, c ≠ 'l') :
    subAll matchDate R (p ++ s) = p ++ subAll matchDate R s :=
  subAll_append_triggerFree matchDate R 'l' matchDate_trigger p s hp

/-- Date substitution steps over a non-`l` character. -/
theorem subD_cons (R : List Char) (c : Char) (s : List Char) (h : c ≠ 'l') :
    subAll matchDate R (c :: s) = c :: subAll matchDate R s :=
  subAll_cons_none matchDate R c s (matchDate_trigger c s h)

/-- Date substitution replaces a date field and resumes after it. -/
theorem subD_field (R inner rest : List Char) (hin : ∀ c ∈ inner, c ≠ '\x7d') :
    subAll matchDate R ("last_upgrade_date \x7b".data ++ (inner ++ '\x7d' :: rest))
      = R ++ subAll matchDate R rest := by
  have h : "last_upgrade_date \x7b".data ++ (inner ++ '\x7d' :: rest)
      = "last_upgrade_date \x7b".data ++ inner ++ '\x7d' :: rest := by simp
  rw [h]
  exact subAll_match matchDate R matchDate_lt _ rest (matchDate_at inner rest hin)

/-- Date substitution leaves a wholly `l`-free string unchanged. -/
theorem subD_all (R s : List Char) (hs : ∀ c ∈ s, c ≠ 'l') :
    subAll matchDate R s = s := by
  have := subD_block R s [] hs
  simpa [subAll_nil] using this

/-- Record text with two occurrences of the version pattern whose recorded
date equals the substituted date. -/
def twoVersionRecord : List Char :=
  "version: \"a\"\nx version: \"b\"\nlast_upgrade_date \x7b year: 1 month: 2 day: 3 \x7d".data

/-- Claim C2, counterexample: on a record with two version-pattern
occurrences, updating with the version already recorded (`a`, the value
`current_version` reports) and with the current date equal to the recorded
date does not leave the record unchanged: the second occurrence is
rewritten too, although it is not the version field. -/
theorem claim_C2_counterexample :
    currentVersion twoVersionRecord = .ok "a".data ∧
    replDate 1 2 3 = "last_upgrade_date \x7b year: 1 month: 2 day: 3 \x7d".data ∧
    updateVersionAndImportDate "a".data 1 2 3 twoVersionRecord ≠ twoVersionRecord := by
  refine ⟨rfl, rfl, ?_⟩
  decide

/-- Membership helper: the version replacement text is free of the date
trigger character whenever the substituted version is. -/
theorem replVersion_noTrigger (v : List Char) (hv : ∀ c ∈ v, c ≠ 'l') :
    ∀ c ∈ replVersion v, c ≠ 'l' := by
  intro c hc
  simp only [replVersion, List.mem_append] at hc
  have hall : ∀ d ∈ "version: \"".data, d ≠ 'l' := by decide
  rcases hc with (h | h) | h
  · exact hall c h
  · exact hv c h
  · simp at h
    subst h
    decide

/-- Parameterized record text with two version fields (values `a` and `b`)
and one date field. -/
def recTwoFields (a b : List Char) : List Char :=
  "name: \"x\"\n".data ++ "version: \"".data ++ a ++ '"' :: '\n' ::
    ("version: \"".data ++ b ++ '"' :: '\n' ::
      ("last_upgrade_date \x7b".data ++ " year: 9 month: 9 day: 9 ".data ++
        '\x7d' :: ['\n']))

/-- Expected output of updating `recTwoFields`: both version-pattern
occurrences rewritten, date field rewritten, everything else untouched. -/
def recTwoFieldsOut (v : List Char) (y mo d : Nat) : List Char :=
  "name: \"x\"\n".data ++ replVersion v ++ '\n' ::
    (replVersion v ++ '\n' :: (replDate y mo d ++ ['\n']))

/-- Parameterized record text with a single version field and one date
field. -/
def recOneField (a : List Char) : List Char :=
  "name: \"x\"\n".data ++ "version: \"".data ++ a ++ '"' :: '\n' ::
    ("last_upgrade_date \x7b".data ++ " year: 9 month: 9 day: 9 ".data ++
      '\x7d' :: ['\n'])

/-- Expected output of updating `recOneField`: exactly the version field
and the date field rewritten, every other byte unchanged. -/
def recOneFieldOut (v : List Char) (y mo d : Nat) : List Char :=
  "name: \"x\"\n".data ++ replVersion v ++ '\n' :: (replDate y mo d ++ ['\n'])

/-- Claim C2, amended: `update_version_and_import_date` rewrites every
occurrence of the version pattern (not only the version field) to the new
version, and every occurrence of the date pattern to the current date,
leaving all other bytes unchanged; on a record with exactly one occurrence
of each pattern, only those two fields change. -/
theorem claim_C2 (v a b : List Char) (y mo d : Nat)
    (hv : ∀ c ∈ v, c ≠ 'l') (ha : ∀ c ∈ a, c ≠ '"') (hb : ∀ c ∈ b, c ≠ '"') :
    updateVersionAndImportDate v y mo d (recTwoFields a b) = recTwoFieldsOut v y mo d ∧
    updateVersionAndImportDate v y mo d (recOneField a) = recOneFieldOut v y mo d := by
  constructor
  · unfold updateVersionAndImportDate recTwoFields
    simp only [List.append_assoc]
    rw [subV_block (replVersion v) "name: \"x\"\n".data _ (by decide),
      subV_field (replVersion v) a _ ha,
      subV_cons (replVersion v) '\n' _ (by decide),
      subV_field (replVersion v) b _ hb,
      subV_cons (replVersion v) '\n' _ (by decide),
      subV_all (replVersion v) _ (by decide)]
    rw [subD_block (replDate y mo d) "name: \"x\"\n".data _ (by decide),
      subD_block (replDate y mo d) (replVersion v) _ (replVersion_noTrigger v hv),
      subD_cons (replDate y mo d) '\n' _ (by decide),
      subD_block (replDate y mo d) (replVersion v) _ (replVersion_noTrigger v hv),
      subD_cons (replDate y mo d) '\n' _ (by decide),
      subD_field (replDate y mo d) " year: 9 month: 9 day: 9 ".data ['\n'] (by decide),
      subD_cons (replDate y mo d) '\n' [] (by decide)]
    simp [recTwoFieldsOut, subAll_nil]
  · unfold updateVersionAndImportDate recOneField
    simp only [List.append_assoc]
    rw [subV_block (replVersion v) "name: \"x\"\n".data _ (by decide),
      subV_field (replVersion v) a _ ha,
      subV_cons (replVersion v) '\n' _ (by decide),
      subV_all (replVersion v) _ (by decide)]
    rw [subD_block (replDate y mo d) "name: \"x\"\n".data _ (by decide),
      subD_block (replDate y mo d) (replVersion v) _ (replVersion_noTrigger v hv),
      subD_cons (replDate y mo d) '\n' _ (by decide),
      subD_field (replDate y mo d) " year: 9 month: 9 day: 9 ".data ['\n'] (by decide),
      subD_cons (replDate y mo d) '\n' [] (by decide)]
    simp [recOneFieldOut, subAll_nil]

/-- Witness for claim C2 at concrete version values and date. -/
theorem claim_C2_witness :
    updateVersionAndImportDate "2.0".data 2026 10 12 (recTwoFields "1.0".data "x".data)
        = recTwoFieldsOut "2.0".data 2026 10 12 ∧
    updateVersionAndImportDate "2.0".data 2026 10 12 (recOneField "1.0".data)
        = recOneFieldOut "2.0".data 2026 10 12 :=
  claim_C2 "2.0".data "1.0".data "x".data 2026 10 12 (by decide) (by decide) (by decide)

/-! ## `GitRepo.git_ref_name_for_version`

The method runs `git describe --all --exact-match <version>` with
`check=False` and evaluates `stdout.splitlines()[0].strip()`.  The model
takes the captured stdout of the subprocess as input.
-/

/-- Model of Python `str.splitlines` for newline-separated text: the empty
string yields no lines, and a trailing newline does not produce a final
empty line. -/
def pySplitlines (s : List Char) : List (List Char) :=
  if s.isEmpty then []
  else
    let parts := listSplitOn ['\n'] s
    if s.getLast? = some '\n' then parts.dropLast else parts

/-- Model of Python `str.strip` for the whitespace characters occurring in
git output. -/
def pyStrip (s : List Char) : List Char :=
  (skipWs (skipWs s).reverse).reverse

/-- Model of `git_ref_name_for_version`, as a function of the stdout the
`git describe --all --exact-match` subprocess produced: indexing `[0]` into
the line list raises `IndexError` when stdout is empty (the describe
command failed, printing only to stderr). -/
def gitRefNameForVersion (describeStdout : List Char) :
    Except PyErr (Option (List Char)) :=
  match pySplitlines describeStdout with
  | [] => .error .indexError
  | line :: _ =>
    let ref := pyStrip line
    match dropLit "tags/".data ref with
    | some rest => .ok (some rest)
    | none =>
      match dropLit "heads/".data ref with
      | some rest => .ok (some rest)
      | none => .ok none

/-- Claim C5, code bug: for a revision with no exactly matching ref the
describe subprocess fails and its stdout is empty, and the code then
raises `IndexError` from `splitlines()[0]` instead of returning `None`;
the `None` outcome only arises when describe succeeds with a ref that is
neither a tag nor a branch head. -/
theorem claim_C5 :
    gitRefNameForVersion [] = .error .indexError ∧
    gitRefNameForVersion "tags/1.32\n".data = .ok (some "1.32".data) ∧
    gitRefNameForVersion "heads/main\n".data = .ok (some "main".data) ∧
    gitRefNameForVersion "remotes/origin/main\n".data = .ok none :=
  ⟨rfl, rfl, rfl, rfl⟩

/-! ## `GitRepo.sparse_depth1_clone`

Modelled as the ordered list of external steps the method performs, as a
function of whether a checkout already exists at the target location. -/

/-- External steps of `sparse_depth1_clone`. -/
inductive CloneStep where
  | mkdirParents
  | removeTree
  | runClone (cmd : List String)
  | sparseAdd (paths : List String)
deriving DecidableEq

/-- The `git clone` command line assembled by `sparse_depth1_clone`. -/
def cloneCommand (url base : String) (version : Option String)
    (paths : List String) : List String :=
  ["git", "clone", "--filter=blob:none", "--depth=1"]
    ++ (if paths.isEmpty then [] else ["--sparse"])
    ++ (match version with
        | some v => if v = "HEAD" then [] else ["-b", v]
        | none => [])
    ++ [url, base]

/-- Model of `sparse_depth1_clone`: make the parent directory, remove an
existing checkout only when `force_clean` holds, and clone (plus
`sparse-checkout add` when paths are given) only when no checkout remains. -/
def sparseDepth1Clone (url base : String) (version : Option String)
    (paths : List String) (forceClean existsBefore : Bool) : List CloneStep :=
  let removed := forceClean && existsBefore
  let existsNow := existsBefore && !removed
  [CloneStep.mkdirParents]
    ++ (if removed then [CloneStep.removeTree] else [])
    ++ (if existsNow then []
        else
          [CloneStep.runClone (cloneCommand url base version paths)]
            ++ (if paths.isEmpty then [] else [CloneStep.sparseAdd paths]))

/-- Claim C7: with `force_clean` true and an existing checkout, the
checkout is removed first and the clone follows; with `force_clean` false
and an existing checkout, the steps end after the parent mkdir — no clone
and no sparse-checkout command is issued. -/
theorem claim_C7 (url base : String) (version : Option String)
    (paths : List String) (forceClean existsBefore : Bool) :
    (forceClean = true → existsBefore = true →
      sparseDepth1Clone url base version paths forceClean existsBefore
        = [CloneStep.mkdirParents, CloneStep.removeTree,
            CloneStep.runClone (cloneCommand url base version paths)]
          ++ (if paths.isEmpty then [] else [CloneStep.sparseAdd paths])) ∧
    (forceClean = false → existsBefore = true →
      sparseDepth1Clone url base version paths forceClean existsBefore
        = [CloneStep.mkdirParents]) := by
  constructor
  · intro h1 h2
    subst h1; subst h2
    simp [sparseDepth1Clone]
  · intro h1 h2
    subst h1; subst h2
    simp [sparseDepth1Clone]

/-- Witness for claim C7 at concrete arguments. -/
theorem claim_C7_witness :
    sparseDepth1Clone "https://u" "/tmp/x" (some "1.32") ["p"] true true
      = [CloneStep.mkdirParents, CloneStep.removeTree,
          CloneStep.runClone (cloneCommand "https://u" "/tmp/x" (some "1.32") ["p"])]
        ++ (if (["p"] : List String).isEmpty then [] else [CloneStep.sparseAdd ["p"]]) ∧
    sparseDepth1Clone "https://u" "/tmp/x" (some "1.32") ["p"] false true
      = [CloneStep.mkdirParents] :=
  ⟨(claim_C7 "https://u" "/tmp/x" (some "1.32") ["p"] true true).1 rfl rfl,
   (claim_C7 "https://u" "/tmp/x" (some "1.32") ["p"] false true).2 rfl rfl⟩

/-! ## The orchestrator (`main`)

Modelled as the ordered list of external effects `main` performs together
with the error that aborts it, as a function of the metadata record text
and an environment recording what the git subprocesses returned.
-/

/-- External effects of `main`. -/
inductive Effect where
  | checkedClean
  | clone (url : Option (List Char)) (version : List Char) (paths : List (List Char))
  | unlink (p : List String)
  | copyFile (p : List String)
  | gitAdd (p : List String)
  | writeMetadata (content : List Char)
  | commit (msg : List Char) (allowEmpty : Bool)
deriving DecidableEq

/-- Results of the git subprocesses and of `datetime.now()`, supplied as
oracles to the orchestrator model. -/
structure Env where
  dirty : Bool
  staged : Bool
  newHash : List Char
  describeNew : List Char
  newFiles : List (List String)
  oldFiles : List (List String)
  year : Nat
  month : Nat
  day : Nat

/-- Model of `set(import_old_files).difference(import_new_files)`: the old
paths absent from the new file list. -/
def filesToRemove (old new : List (List String)) : List (List String) :=
  old.filter (fun p => decide (p ∉ new))

/-- Unlink effects of the removal loop: every non-ignored file to remove. -/
def deletionEffects (old new : List (List String)) : List Effect :=
  ((filesToRemove old new).filter (fun p => !mustIgnore p)).map Effect.unlink

/-- Copy and stage effects of the copy loop: every non-ignored new file is
copied and then staged. -/
def copyEffects (new : List (List String)) : List Effect :=
  (new.filter (fun p => !mustIgnore p)).flatMap
    (fun p => [Effect.copyFile p, Effect.gitAdd p])

/-- The commit message assembled by `main` (after `lstrip`). -/
def commitMessage (group name hash : List Char) : List Char :=
  "Update to ".data ++ group ++ " protocols ".data ++ name
    ++ "\n\nThis imports ".data ++ hash
    ++ " from the upstream repository.\n\nTest: Builds\n".data

/-- Model of `main`: the effects performed in order, and the Python error
or fatal exit that aborted the run (`none` when it completed).  Effects of
pure queries (hash lookup, file listing, describe) are not recorded; their
results come from `env`. -/
def mainModel (group version : List Char) (removeOld : Bool)
    (content : List Char) (env : Env) : List Effect × Option PyErr :=
  if env.dirty then ([], some (.exitMsg "Error: Your tree is dirty".data))
  else if env.staged then ([], some (.exitMsg "Error: You have staged changes".data))
  else
    match readRawGitUrls content with
    | .error e => ([.checkedClean], some e)
    | .ok (url, paths) =>
      match gitRefNameForVersion env.describeNew with
      | .error e => ([.checkedClean, .clone url version paths], some e)
      | .ok refName =>
        let name :=
          match refName with
          | some r => if r.isEmpty then env.newHash else r
          | none => env.newHash
        let updated := updateVersionAndImportDate name env.year env.month env.day content
        let tailFx := copyEffects env.newFiles
          ++ [.writeMetadata updated, .gitAdd ["METADATA"],
              .commit (commitMessage group name env.newHash) true]
        if removeOld then
          match currentVersion content with
          | .error e => ([.checkedClean, .clone url version paths], some e)
          | .ok cv =>
            ([.checkedClean, .clone url version paths, .clone url cv paths]
              ++ deletionEffects env.oldFiles env.newFiles ++ tailFx, none)
        else ([.checkedClean, .clone url version paths] ++ tailFx, none)

/-- Claim C1: in a completed run with old-file removal enabled, a path is
unlinked from the vendored directory exactly when it is in the old file
set, not in the new file set, and not protected; a protected path is never
unlinked and never copied over, regardless of its membership in either
set. -/
theorem claim_C1 (group version content : List Char) (env : Env)
    (u : Option (List Char)) (ps : List (List Char)) (rn : Option (List Char))
    (cv : List Char) (p : List String)
    (h1 : env.dirty = false) (h2 : env.staged = false)
    (hurl : readRawGitUrls content = .ok (u, ps))
    (href : gitRefNameForVersion env.describeNew = .ok rn)
    (hcv : currentVersion content = .ok cv) :
    (Effect.unlink p ∈ (mainModel group version true content env).1 ↔
      (p ∈ env.oldFiles ∧ p ∉ env.newFiles ∧ mustIgnore p = false)) ∧
    (mustIgnore p = true →
      Effect.unlink p ∉ (mainModel group version true content env).1 ∧
      Effect.copyFile p ∉ (mainModel group version true content env).1) := by
  simp only [mainModel, h1, h2, hurl, href, hcv, reduceIte, if_true]
  constructor
  · simp only [deletionEffects, copyEffects, filesToRemove, List.mem_append,
      List.mem_map, List.mem_filter, List.mem_flatMap, decide_eq_true_iff,
      Bool.not_eq_true', and_assoc]
    simp
    exact fun _ => and_comm
  · intro hi
    constructor
    · simp [deletionEffects, copyEffects, filesToRemove, List.mem_append,
        List.mem_map, List.mem_filter, List.mem_flatMap, hi]
    · simp [deletionEffects, copyEffects, filesToRemove, List.mem_append,
        List.mem_map, List.mem_filter, List.mem_flatMap, hi]

/-- Metadata record used to instantiate orchestrator claims. -/
def sampleRecord : List Char :=
  "version: \"1.0\"\nurl \x7b type: GIT value: \"https://example.org/repo\" \x7d\n".data

/-- Environment used to instantiate orchestrator claims. -/
def envC1 : Env :=
  ⟨false, false, "abc123".data, "tags/1.32\n".data,
    [["b"], ["sub", "METADATA"]], [["a"], ["b"], ["sub", "METADATA"]], 2026, 10, 12⟩

/-- Witness for claim C1: a protected path present in both file sets is
neither unlinked nor copied. -/
theorem claim_C1_witness :
    Effect.unlink ["sub", "METADATA"] ∉
      (mainModel "g".data "HEAD".data true sampleRecord envC1).1 ∧
    Effect.copyFile ["sub", "METADATA"] ∉
      (mainModel "g".data "HEAD".data true sampleRecord envC1).1 :=
  (claim_C1 "g".data "HEAD".data sampleRecord envC1
    (some "https://example.org/repo".data) [] (some "1.32".data) "1.0".data
    ["sub", "METADATA"] rfl rfl rfl rfl rfl).2 (by decide)

/-- Record text with two GIT URL entries whose base URLs differ. -/
def inconsistentRecord : List Char :=
  ("url \x7b type: GIT value: \"https://a/repo\" \x7d\n"
    ++ "url \x7b type: GIT value: \"https://b/other\" \x7d\n").data

/-- The fatal message produced for `inconsistentRecord`. -/
def inconsistentMsg : List Char :=
  "Error: Inconsistent git URLs (https://a/repo vs https://b/other)".data

/-- Claim C4: two URL entries whose base URLs differ after suffix-stripping
make URL reading exit fatally with a descriptive message (whenever the
first stored base URL is truthy), and in the orchestrator this failure
surfaces while reading `git_url`, before any clone effect is emitted. -/
theorem claim_C4 :
    (∀ (u1 u2 b1 b2 : List Char) (p1 p2 : Option (List Char)),
      parseUrl u1 = .ok (b1, p1) → parseUrl u2 = .ok (b2, p2) →
      b1.isEmpty = false → b1 ≠ b2 →
      ∃ m, processUrls (none, []) [u1, u2] = .error (.exitMsg m)) ∧
    (∃ m, readRawGitUrls inconsistentRecord = .error (.exitMsg m)) ∧
    (∀ (group version content : List Char) (removeOld : Bool) (env : Env)
       (m : List Char),
      env.dirty = false → env.staged = false →
      readRawGitUrls content = .error (.exitMsg m) →
      (mainModel group version removeOld content env).2 = some (.exitMsg m) ∧
      ∀ url v qs, Effect.clone url v qs ∉
        (mainModel group version removeOld content env).1) := by
  refine ⟨?_, ⟨_, rfl⟩, ?_⟩
  · intro u1 u2 b1 b2 p1 p2 hp1 hp2 hb1 hb2
    refine ⟨"Error: Inconsistent git URLs (".data ++ b1 ++ " vs ".data ++ b2
      ++ [')'], ?_⟩
    simp only [processUrls, urlStep, hp1, hp2]
    simp [hb1, hb2]
  · intro group version content removeOld env m h1 h2 hurl
    constructor
    · simp [mainModel, h1, h2, hurl]
    · intro url v qs
      simp [mainModel, h1, h2, hurl]

/-- Witness for claim C4: the two-entry inconsistent record aborts the
orchestrator with the descriptive message and without any clone effect. -/
theorem claim_C4_witness :
    (∃ m, processUrls (none, []) ["https://a/repo".data, "https://b/other".data]
        = .error (.exitMsg m)) ∧
    ((mainModel "g".data "HEAD".data true inconsistentRecord envC1).2
        = some (.exitMsg inconsistentMsg) ∧
      ∀ url v qs, Effect.clone url v qs ∉
        (mainModel "g".data "HEAD".data true inconsistentRecord envC1).1) :=
  ⟨claim_C4.1 "https://a/repo".data "https://b/other".data "https://a/repo".data
      "https://b/other".data none none rfl rfl rfl (by decide),
    claim_C4.2.2 "g".data "HEAD".data inconsistentRecord true envC1 inconsistentMsg
      rfl rfl rfl⟩

/-! ## Directory-state semantics of the deletion-plus-copy step -/

/-- Effect of one orchestrator step on the vendored directory, seen as a
partial map from relative paths to file contents; `snap` gives the content
of a path in the new snapshot (fixed, since both runs use the same
revision); effects other than unlink and copy do not change the map. -/
def applyEffect {α : Type} (snap : List String → α)
    (d : List String → Option α) : Effect → (List String → Option α)
  | .unlink p => fun q => if q = p then none else d q
  | .copyFile p => fun q => if q = p then some (snap p) else d q
  | _ => d

/-- Directory state after a list of effects. -/
def applyEffects {α : Type} (snap : List String → α)
    (d : List String → Option α) (fx : List Effect) : List String → Option α :=
  fx.foldl (applyEffect snap) d

/-- The deletion-plus-copy step of `main`: the unlink effects followed by
the copy effects, exactly as emitted by the orchestrator. -/
def delCopyStep (old new : List (List String)) : List Effect :=
  deletionEffects old new ++ copyEffects new

/-- Applying the unlink effects removes exactly the listed paths. -/
theorem applyEffects_unlinks {α : Type} (snap : List String → α) :
    ∀ (l : List (List String)) (d : List String → Option α) (q : List String),
      applyEffects snap d (l.map Effect.unlink) q = if q ∈ l then none else d q := by
  intro l
  induction l with
  | nil => intro d q; simp [applyEffects]
  | cons a as ih =>
      intro d q
      have hstep : applyEffects snap d ((a :: as).map Effect.unlink)
          = applyEffects snap (applyEffect snap d (Effect.unlink a))
              (as.map Effect.unlink) := rfl
      rw [hstep, ih]
      by_cases hmem : q ∈ as
      · simp [hmem]
      · by_cases heq : q = a
        · simp [hmem, heq, applyEffect]
        · simp [hmem, heq, applyEffect]

/-- Applying the copy effects writes the snapshot content of exactly the
listed paths; the interleaved staging effects do not touch the directory. -/
theorem applyEffects_copies {α : Type} (snap : List String → α) :
    ∀ (l : List (List String)) (d : List String → Option α) (q : List String),
      applyEffects snap d (l.flatMap (fun p => [Effect.copyFile p, Effect.gitAdd p])) q
        = if q ∈ l then some (snap q) else d q := by
  intro l
  induction l with
  | nil => intro d q; simp [applyEffects]
  | cons a as ih =>
      intro d q
      have hstep : applyEffects snap d
            ((a :: as).flatMap (fun p => [Effect.copyFile p, Effect.gitAdd p]))
          = applyEffects snap
              (applyEffect snap (applyEffect snap d (Effect.copyFile a)) (Effect.gitAdd a))
              (as.flatMap (fun p => [Effect.copyFile p, Effect.gitAdd p])) := rfl
      rw [hstep, ih]
      have hga : applyEffect snap (applyEffect snap d (Effect.copyFile a)) (Effect.gitAdd a)
          = applyEffect snap d (Effect.copyFile a) := rfl
      rw [hga]
      by_cases hmem : q ∈ as
      · simp [hmem]
      · by_cases heq : q = a
        · subst heq; simp [hmem, applyEffect]
        · simp [hmem, heq, applyEffect]

/-- Pointwise characterization of the deletion-plus-copy step: a
non-protected new file gets the snapshot content, a non-protected stale
file is removed, and every other path keeps its previous state. -/
theorem applyEffects_delCopy {α : Type} (snap : List String → α)
    (old new : List (List String)) (d : List String → Option α) (q : List String) :
    applyEffects snap d (delCopyStep old new) q
      = if q ∈ new ∧ mustIgnore q = false then some (snap q)
        else if q ∈ old ∧ q ∉ new ∧ mustIgnore q = false then none
        else d q := by
  have hsplit : applyEffects snap d (delCopyStep old new)
      = applyEffects snap (applyEffects snap d (deletionEffects old new))
          (copyEffects new) := by
    simp [delCopyStep, applyEffects, List.foldl_append]
  rw [hsplit]
  rw [copyEffects, applyEffects_copies, deletionEffects, applyEffects_unlinks]
  simp only [filesToRemove, List.mem_filter, decide_eq_true_iff, Bool.not_eq_true']
  split_ifs <;> simp_all

/-- Claim C6: running the deletion-plus-copy step twice with the same two
file sets (and the same snapshot contents, the revisions being equal)
yields the same directory state as running it once; and a completed
orchestrator run always commits with `allow_empty`, so the second run's
commit may be empty. -/
theorem claim_C6 :
    (∀ (α : Type) (snap : List String → α) (old new : List (List String))
       (d : List String → Option α),
      applyEffects snap (applyEffects snap d (delCopyStep old new)) (delCopyStep old new)
        = applyEffects snap d (delCopyStep old new)) ∧
    (∀ (group version content : List Char) (removeOld : Bool) (env : Env)
       (t : List Effect),
      mainModel group version removeOld content env = (t, none) →
      ∃ msg, Effect.commit msg true ∈ t) := by
  constructor
  · intro α snap old new d
    funext q
    rw [applyEffects_delCopy, applyEffects_delCopy]
    split_ifs <;> rfl
  · intro group version content removeOld env t h
    by_cases h1 : env.dirty
    · simp [mainModel, h1] at h
    by_cases h2 : env.staged
    · simp [mainModel, h1, h2] at h
    cases hurl : readRawGitUrls content with
    | error e => simp [mainModel, h1, h2, hurl] at h
    | ok ups =>
        obtain ⟨u, ps⟩ := ups
        cases href : gitRefNameForVersion env.describeNew with
        | error e => simp [mainModel, h1, h2, hurl, href] at h
        | ok rn =>
            by_cases hro : removeOld
            · cases hcv : currentVersion content with
              | error e => simp [mainModel, h1, h2, hurl, href, hro, hcv] at h
              | ok cv =>
                  simp only [mainModel, h1, h2, hurl, href, hro, hcv, if_true,
                    reduceIte, Bool.false_eq_true, if_false, Prod.mk.injEq] at h
                  obtain ⟨ht, -⟩ := h
                  subst ht
                  cases rn with
                  | none => exact ⟨commitMessage group env.newHash env.newHash, by simp⟩
                  | some r =>
                      by_cases hr : r.isEmpty
                      · exact ⟨commitMessage group env.newHash env.newHash, by simp [hr]⟩
                      · exact ⟨commitMessage group r env.newHash, by simp [hr]⟩
            · simp only [mainModel, h1, h2, hurl, href, hro, reduceIte,
                Bool.false_eq_true, if_false, Prod.mk.injEq] at h
              obtain ⟨ht, -⟩ := h
              subst ht
              cases rn with
              | none => exact ⟨commitMessage group env.newHash env.newHash, by simp⟩
              | some r =>
                  by_cases hr : r.isEmpty
                  · exact ⟨commitMessage group env.newHash env.newHash, by simp [hr]⟩
                  · exact ⟨commitMessage group r env.newHash, by simp [hr]⟩

/-- Witness for claim C6: a concrete completed run contains an allow-empty
commit effect. -/
theorem claim_C6_witness :
    ∃ msg, Effect.commit msg true ∈
      (mainModel "g".data "HEAD".data true sampleRecord envC1).1 :=
  claim_C6.2 "g".data "HEAD".data sampleRecord true envC1
    (mainModel "g".data "HEAD".data true sampleRecord envC1).1 rfl
